import Mathlib

/-!
Verification of the rust-emitter event dispatch library.

The source (src/lib.rs) is a synchronous event emitter:

  - `EventEmitter` holds `events : HashMap<TypeId, Vec<Box<Fn(&()) + Send>>>`.
  - `Event<X>` is a marker trait tying an event kind `E` to a payload type `X`.
  - `Eventable::on<E: Event<X>, F: Fn(&X) + Send, X>` boxes the callback,
    transmutes it to the erased type `Box<Fn(&())>`, and appends it to the
    bucket for `TypeId::of::<E>()` (creating the bucket with a one-element
    vector if absent).
  - `Eventable::trigger<E: Event<X>, X>(event: X)` looks up the bucket for
    `TypeId::of::<E>()` (taking `&self`, so it cannot mutate the table),
    transmutes the bucket back to `&Vec<Box<Fn(&X)>>`, and calls every
    handler in order with `&event`.

Embedding choices:

  - `TypeId` values of event kinds are modelled as `Nat` keys.
  - Rust payload types are modelled by a small closed universe `Ty` with
    interpretation `Ty.interp`; the theorems are generic over `Ty`.
  - A callback `Fn(&X)` is a side-effecting handler; its observable
    behaviour is modelled as a pure function `X → List Nat × Option Err`:
    the list of log actions it performs, and `some e` when it panics after
    performing them.
  - The type-erased `Box<Fn(&())>` still carries, at runtime, the machine
    code of the original closure; an erased `Entry` therefore records its
    original payload type `ty` next to the function.  Restoring an entry at
    a payload type other than its original one is undefined behaviour in
    the source; the model marks it with the distinguished outcome
    `TriggerOutcome.ub` and stops (undefined behaviour has no defined
    continuation).
  - `HashMap` with the `Entry` API is modelled as an association list:
    `on` appends to the first bucket with the key, or pushes a fresh
    single-element bucket; lookup returns the first bucket with the key.
    Only per-key access is used by the source, so hash order is irrelevant.
  - `trigger` takes `&self` in the source; accordingly the Lean `trigger`
    consumes the emitter and returns only the dispatch result.  The
    state-passing view of one method call is `step`, which threads the
    emitter explicitly and returns it unchanged for a trigger.
-/

namespace RustEmitter

/-- Closed universe of payload types standing in for Rust types `X`. -/
inductive Ty : Type where
  | natTy
  | boolTy
  | unitTy
  deriving DecidableEq

/-- Interpretation of a payload type code as a Lean type. -/
@[reducible] def Ty.interp : Ty → Type
  | .natTy => Nat
  | .boolTy => Bool
  | .unitTy => Unit

/-- Panic payloads of a failing callback. -/
abbrev Err := Nat

/-- Observable behaviour of a callback `Fn(&X) + Send`: the log actions it
performs on its payload and, optionally, the panic it ends in. -/
abbrev Cb (t : Ty) : Type := t.interp → List Nat × Option Err

/-- One type-erased stored callback, `Box<Fn(&()) + Send>` in the source:
the erased box still behaves as the closure of its original payload type
`ty`, which the model records explicitly. -/
structure Entry : Type where
  ty : Ty
  fn : Cb ty

/-- The event emitter: `events` is the lookup table from the `TypeId` of an
event kind to the vector of erased callbacks, modelled as an association
list. -/
structure EventEmitter : Type where
  events : List (Nat × List Entry)

/-- A freshly constructed emitter with an empty table. -/
def emptyEmitter : EventEmitter := ⟨[]⟩

/-- The `HashMap` entry API as used by `on`: if a bucket for the key is
occupied, push the callback onto it; if vacant, set it to the one-element
vector. -/
def insertCb : List (Nat × List Entry) → Nat → Entry → List (Nat × List Entry)
  | [], k, e => [(k, [e])]
  | (k2, b) :: rest, k, e =>
    if k2 = k then (k2, b ++ [e]) :: rest else (k2, b) :: insertCb rest k e

/-- The `HashMap::get` lookup used by `trigger`. -/
def lookupBucket : List (Nat × List Entry) → Nat → Option (List Entry)
  | [], _ => none
  | (k2, b) :: rest, k => if k2 = k then some b else lookupBucket rest k

/-- `Eventable::on::<E, F, X>`: erase the callback and append it to the
bucket keyed by `TypeId::of::<E>()`.  `k` is the key of the kind `E` and
`t` the payload type `X` of the registration site. -/
def «on» (em : EventEmitter) (k : Nat) (t : Ty) (cb : Cb t) : EventEmitter :=
  ⟨insertCb em.events k ⟨t, cb⟩⟩

/-- Result of one `trigger` call: `ok` when every handler ran and returned,
`panicked e` when a handler panicked (the panic unwinds out of `trigger`),
`ub` when a handler was restored at a payload type other than its original
one (undefined behaviour in the source). -/
inductive TriggerOutcome : Type where
  | ok
  | panicked (e : Err)
  | ub
  deriving DecidableEq

/-- Calling one erased handler after the bucket was transmuted to
`&Vec<Box<Fn(&X)>>` for the trigger payload type `t`: defined exactly when
the entry's original type is `t`, undefined (`none`) otherwise. -/
def invokeAt (e : Entry) (t : Ty) (x : t.interp) : Option (List Nat × Option Err) :=
  if h : e.ty = t then some (e.fn (cast (congrArg Ty.interp h.symm) x)) else none

/-- The `for handler in handlers.iter()` loop of `trigger`: run the erased
handlers left to right on the same payload, accumulating their log actions;
stop at the first panic (which propagates) or at the first wrongly-typed
restoration (undefined behaviour). -/
def runHandlers (t : Ty) (x : t.interp) : List Entry → List Nat × TriggerOutcome
  | [] => ([], .ok)
  | e :: rest =>
    match invokeAt e t x with
    | none => ([], TriggerOutcome.ub)
    | some (acts, some err) => (acts, TriggerOutcome.panicked err)
    | some (acts, none) =>
      (acts ++ (runHandlers t x rest).1, (runHandlers t x rest).2)

/-- `Eventable::trigger::<E, X>(event)`: look up the bucket for the key of
`E`; a missing bucket is a no-op, otherwise every handler is called in
order with a reference to the same payload. -/
def trigger (em : EventEmitter) (k : Nat) (t : Ty) (x : t.interp) : List Nat × TriggerOutcome :=
  match lookupBucket em.events k with
  | none => ([], TriggerOutcome.ok)
  | some hs => runHandlers t x hs

/-- One public operation on an emitter. -/
inductive Op : Type where
  | opOn (k : Nat) (t : Ty) (cb : Cb t)
  | opTrigger (k : Nat) (t : Ty) (x : t.interp)

/-- State-passing view of one method call.  `on` takes `&mut self` and may
replace the table; `trigger` takes `&self`, so the state it returns is the
state it received. -/
def step (em : EventEmitter) : Op → EventEmitter × (List Nat × TriggerOutcome)
  | .opOn k t cb => («on» em k t cb, ([], TriggerOutcome.ok))
  | .opTrigger k t x => (em, trigger em k t x)

/-- Register a list of callbacks one after the other under one kind. -/
def registerAll (em : EventEmitter) (k : Nat) (t : Ty) (cbs : List (Cb t)) : EventEmitter :=
  cbs.foldl (fun e c => «on» e k t c) em

/-- Emitter states reachable from a fresh emitter by the public operations. -/
inductive Reachable : EventEmitter → Prop where
  | empty : Reachable emptyEmitter
  | next (em : EventEmitter) (op : Op) : Reachable em → Reachable (step em op).1

/-- The bucket stored for a key, the empty vector when the key is absent. -/
def bucketOf (em : EventEmitter) (k : Nat) : List Entry :=
  (lookupBucket em.events k).getD []

/-- The table is well typed for a key-to-payload-type assignment `keyTy`
when every stored entry under key `k` was registered at payload type
`keyTy k`.  This is the correspondence the source's transmutes trust. -/
def KeyTyped (em : EventEmitter) (keyTy : Nat → Ty) : Prop :=
  ∀ k b, lookupBucket em.events k = some b → ∀ e ∈ b, e.ty = keyTy k

/-- Modelled from the source trait `Event<X>`: a client crate's set of
`impl Event<X> for E` items, as the relation of (kind key, payload type)
pairs admitted by the type checker at `on` and `trigger` sites.  Rust
allows one kind to implement `Event` at several payload types; `exEvent`
is such a legal client: a kind with key 0 implementing both
`Event<usize>` and `Event<bool>`. -/
def exEvent : Nat → Ty → Prop := fun k t => k = 0 ∧ (t = Ty.natTy ∨ t = Ty.boolTy)

/-- Sample callback on a `natTy` payload: log the payload, do not panic. -/
def cbW : Cb Ty.natTy := fun n => ([n], none)

/-- Sample key-to-payload-type assignment: every key carries `natTy`. -/
abbrev keyTyW : Nat → Ty := fun _ => Ty.natTy

/-- Sample one-registration emitter. -/
def emW : EventEmitter := «on» emptyEmitter 0 Ty.natTy cbW

/-- Sample callback pair logging distinct indices. -/
def cbsW : List (Cb Ty.natTy) := [fun _ => ([0], none), fun _ => ([1], none)]

/-- Sample callback logging 1 and returning. -/
def cb1W : Cb Ty.natTy := fun _ => ([1], none)

/-- Sample callback logging 2 and then panicking with payload 7. -/
def cb2W : Cb Ty.natTy := fun _ => ([2], some 7)

/-- Sample callback logging 3 and returning. -/
def cb3W : Cb Ty.natTy := fun _ => ([3], none)

/-- Inserting under key `k` turns the bucket for `k` into the old bucket
(empty when absent) with the new entry appended. -/
theorem lookup_insertCb_self (l : List (Nat × List Entry)) (k : Nat) (e : Entry) :
    lookupBucket (insertCb l k e) k = some ((lookupBucket l k).getD [] ++ [e]) := by
  induction l with
  | nil => simp [insertCb, lookupBucket]
  | cons p rest ih =>
    obtain ⟨k2, b⟩ := p
    by_cases h : k2 = k
    · subst h; simp [insertCb, lookupBucket]
    · simp [insertCb, lookupBucket, h, ih]

/-- Inserting under key `k` leaves every other key's lookup unchanged. -/
theorem lookup_insertCb_other (l : List (Nat × List Entry)) (k k2 : Nat) (e : Entry)
    (h : k2 ≠ k) : lookupBucket (insertCb l k e) k2 = lookupBucket l k2 := by
  induction l with
  | nil => simp [insertCb, lookupBucket, Ne.symm h]
  | cons p rest ih =>
    obtain ⟨k3, b⟩ := p
    by_cases h3 : k3 = k
    · subst h3
      have h32 : ¬ k3 = k2 := fun hh => h (hh ▸ rfl)
      simp [insertCb, lookupBucket, h32]
    · by_cases h32 : k3 = k2
      · simp [insertCb, lookupBucket, h3, h32, h]
      · simp [insertCb, lookupBucket, h3, h32, ih]

/-- Lookup of the registered key after `on`. -/
theorem lookup_on_self (em : EventEmitter) (k : Nat) (t : Ty) (cb : Cb t) :
    lookupBucket («on» em k t cb).events k
      = some ((lookupBucket em.events k).getD [] ++ [Entry.mk t cb]) :=
  lookup_insertCb_self em.events k (Entry.mk t cb)

/-- Lookup of any other key after `on`. -/
theorem lookup_on_other (em : EventEmitter) (k k2 : Nat) (t : Ty) (cb : Cb t)
    (h : k2 ≠ k) :
    lookupBucket («on» em k t cb).events k2 = lookupBucket em.events k2 :=
  lookup_insertCb_other em.events k k2 (Entry.mk t cb) h

/-- Bucket view of `lookup_on_self`. -/
theorem bucketOf_on_self (em : EventEmitter) (k : Nat) (t : Ty) (cb : Cb t) :
    bucketOf («on» em k t cb) k = bucketOf em k ++ [Entry.mk t cb] := by
  simp [bucketOf, lookup_on_self]

/-- Bucket view of `lookup_on_other`. -/
theorem bucketOf_on_other (em : EventEmitter) (k k2 : Nat) (t : Ty) (cb : Cb t)
    (h : k2 ≠ k) : bucketOf («on» em k t cb) k2 = bucketOf em k2 := by
  simp [bucketOf, lookup_on_other em k k2 t cb h]

/-- Dispatch factors through the bucket: a missing bucket and an empty
bucket behave identically (both are silent no-ops). -/
theorem trigger_eq_run (em : EventEmitter) (k : Nat) (t : Ty) (x : t.interp) :
    trigger em k t x = runHandlers t x (bucketOf em k) := by
  cases h : lookupBucket em.events k with
  | none => simp [trigger, bucketOf, h, runHandlers]
  | some b => simp [trigger, bucketOf, h]

/-- Restoring an entry at its own original payload type runs the original
callback on the payload. -/
theorem invokeAt_self (t : Ty) (c : Cb t) (x : t.interp) :
    invokeAt (Entry.mk t c) t x = some (c x) := by
  simp [invokeAt]

/-- Restoring an entry at any other payload type is undefined. -/
theorem invokeAt_ne (e : Entry) (t : Ty) (x : t.interp) (h : e.ty ≠ t) :
    invokeAt e t x = none := by
  simp [invokeAt, h]

/-- Running a bucket of same-typed, non-panicking callbacks triggers each
one exactly once, in bucket order, on the same payload. -/
theorem runHandlers_map_ok (t : Ty) (x : t.interp) (cbs : List (Cb t))
    (h : ∀ c ∈ cbs, (c x).2 = none) :
    runHandlers t x (cbs.map (Entry.mk t))
      = ((cbs.map fun c => (c x).1).flatten, TriggerOutcome.ok) := by
  induction cbs with
  | nil => simp [runHandlers]
  | cons c cs ih =>
    have hc := h c (List.mem_cons_self c cs)
    rcases hx : c x with ⟨acts, oerr⟩
    rw [hx] at hc
    simp only at hc
    subst hc
    simp only [List.map_cons, runHandlers, invokeAt_self, hx]
    rw [ih (fun c2 hc2 => h c2 (List.mem_cons_of_mem _ hc2))]
    simp [hx]

/-- Running a bucket whose entries all have the trigger's payload type
never reaches undefined behaviour. -/
theorem runHandlers_typed_no_ub (t : Ty) (x : t.interp) (es : List Entry)
    (h : ∀ e ∈ es, e.ty = t) :
    (runHandlers t x es).2 ≠ TriggerOutcome.ub := by
  induction es with
  | nil => simp [runHandlers]
  | cons e rest ih =>
    have he := h e (List.mem_cons_self e rest)
    obtain ⟨ty, f⟩ := e
    simp only at he
    subst he
    rcases hx : f x with ⟨acts, oerr⟩
    cases oerr with
    | none =>
      simp only [runHandlers, invokeAt_self, hx]
      exact ih (fun e2 he2 => h e2 (List.mem_cons_of_mem _ he2))
    | some err =>
      simp [runHandlers, invokeAt_self, hx]

/-- Every entry of a bucket of a well-typed table has the key's type. -/
theorem keyTyped_bucketOf (em : EventEmitter) (keyTy : Nat → Ty)
    (h : KeyTyped em keyTy) (k : Nat) :
    ∀ e ∈ bucketOf em k, e.ty = keyTy k := by
  intro e he
  unfold bucketOf at he
  cases hl : lookupBucket em.events k with
  | none => rw [hl] at he; cases he
  | some b => rw [hl] at he; exact h k b hl e he

/-- Registering at the type assigned to the key keeps the table well
typed. -/
theorem keyTyped_on (em : EventEmitter) (keyTy : Nat → Ty)
    (h : KeyTyped em keyTy) (k : Nat) (cb : Cb (keyTy k)) :
    KeyTyped («on» em k (keyTy k) cb) keyTy := by
  intro k2 b hb e he
  by_cases hk : k2 = k
  · subst hk
    rw [lookup_on_self] at hb
    injection hb with hb
    subst hb
    rcases List.mem_append.mp he with h1 | h2
    · exact keyTyped_bucketOf em keyTy h k2 e h1
    · rw [List.mem_singleton.mp h2]
  · rw [lookup_on_other em k k2 _ cb hk] at hb
    exact h k2 b hb e he

/-- Buckets built by `registerAll`. -/
theorem bucketOf_registerAll (k : Nat) (t : Ty) (cbs : List (Cb t)) (em : EventEmitter) :
    bucketOf (registerAll em k t cbs) k = bucketOf em k ++ cbs.map (Entry.mk t) := by
  induction cbs generalizing em with
  | nil => simp [registerAll]
  | cons c cs ih =>
    show bucketOf (registerAll («on» em k t c) k t cs) k = _
    rw [ih, bucketOf_on_self]
    simp

/-- Triggering a fresh emitter after registering a list of non-panicking
callbacks under one kind invokes each exactly once, in registration order,
on the trigger payload. -/
theorem trigger_registerAll_ok (k : Nat) (t : Ty) (cbs : List (Cb t)) (x : t.interp)
    (h : ∀ c ∈ cbs, (c x).2 = none) :
    trigger (registerAll emptyEmitter k t cbs) k t x
      = ((cbs.map fun c => (c x).1).flatten, TriggerOutcome.ok) := by
  rw [trigger_eq_run, bucketOf_registerAll]
  have hbe : bucketOf emptyEmitter k = [] := rfl
  rw [hbe, List.nil_append]
  exact runHandlers_map_ok t x cbs h

/-- Flattening copies of a one-element list. -/
theorem flatten_replicate_one (n : Nat) (a : Nat) :
    (List.replicate n [a]).flatten = List.replicate n a := by
  induction n with
  | zero => rfl
  | succ m ih => simp [List.replicate_succ, ih]

/-- Inserting into a table of non-empty buckets yields non-empty buckets. -/
theorem insertCb_nonempty (l : List (Nat × List Entry)) (k : Nat) (e : Entry)
    (h : ∀ p ∈ l, p.2 ≠ []) : ∀ p ∈ insertCb l k e, p.2 ≠ [] := by
  induction l with
  | nil =>
    intro p hp
    simp only [insertCb, List.mem_singleton] at hp
    subst hp
    simp
  | cons q rest ih =>
    obtain ⟨k2, b⟩ := q
    intro p hp
    by_cases hk : k2 = k
    · rw [insertCb, if_pos hk] at hp
      rcases List.mem_cons.mp hp with rfl | hp2
      · simp
      · exact h p (List.mem_cons_of_mem _ hp2)
    · rw [insertCb, if_neg hk] at hp
      rcases List.mem_cons.mp hp with rfl | hp2
      · exact h (k2, b) (List.mem_cons_self _ _)
      · exact ih (fun q2 hq => h q2 (List.mem_cons_of_mem _ hq)) p hp2

/-- C1, counterexample: the key-to-payload-type correspondence is not
enforced by the type system.  `exEvent` is a legal client whose kind with
key 0 implements the `Event` marker at both `natTy` and `boolTy`, so both
the registration at `natTy` and the later trigger of the same kind at
`boolTy` satisfy the trait bounds of `on` and `trigger`; the dispatch then
restores the stored callback at `boolTy`, not at its original payload type
`natTy`, which is undefined behaviour in the source. -/
theorem erasure_not_enforced_counterexample :
    exEvent 0 Ty.natTy ∧ exEvent 0 Ty.boolTy ∧
    (trigger emW 0 Ty.boolTy true).2 = TriggerOutcome.ub :=
  ⟨⟨rfl, Or.inl rfl⟩, ⟨rfl, Or.inr rfl⟩, by decide⟩

/-- C1, amended: when the stored entries under every key have the payload
type assigned to that key (as is forced whenever each event kind
implements the `Event` marker at a unique payload type), triggering a kind
at its assigned type restores every stored callback at exactly its
original payload type — dispatch never reaches the undefined wrongly-typed
restoration — and registering at the assigned type preserves this
correspondence. -/
theorem typed_restoration (em : EventEmitter) (keyTy : Nat → Ty)
    (h : KeyTyped em keyTy) (k : Nat) (x : (keyTy k).interp) (cb : Cb (keyTy k)) :
    (trigger em k (keyTy k) x).2 ≠ TriggerOutcome.ub ∧
    KeyTyped («on» em k (keyTy k) cb) keyTy := by
  refine ⟨?_, keyTyped_on em keyTy h k cb⟩
  rw [trigger_eq_run]
  exact runHandlers_typed_no_ub _ _ _ (keyTyped_bucketOf em keyTy h k)

/-- Witness for `typed_restoration` at a concrete well-typed emitter. -/
theorem typed_restoration_witness :
    KeyTyped emW keyTyW ∧
    ((trigger emW 0 (keyTyW 0) 5).2 ≠ TriggerOutcome.ub ∧
     KeyTyped («on» emW 0 (keyTyW 0) cbW) keyTyW) := by
  have h0 : KeyTyped emptyEmitter keyTyW := by
    intro k b hb
    simp [emptyEmitter, lookupBucket] at hb
  have h : KeyTyped emW keyTyW := keyTyped_on emptyEmitter keyTyW h0 0 cbW
  exact ⟨h, typed_restoration emW keyTyW h 0 5 cbW⟩

/-- C2: for every sequence of non-panicking callbacks registered under one
event kind, a single trigger invokes them exactly in registration order:
the dispatch log is the concatenation, in registration order, of each
callback's log on the trigger payload. -/
theorem registration_order (k : Nat) (t : Ty) (cbs : List (Cb t)) (x : t.interp)
    (h : ∀ c ∈ cbs, (c x).2 = none) :
    trigger (registerAll emptyEmitter k t cbs) k t x
      = ((cbs.map fun c => (c x).1).flatten, TriggerOutcome.ok) :=
  trigger_registerAll_ok k t cbs x h

/-- Witness for `registration_order`: two indexed callbacks fire as 0 then 1. -/
theorem registration_order_witness :
    (∀ c ∈ cbsW, (c 7).2 = none) ∧
    trigger (registerAll emptyEmitter 3 Ty.natTy cbsW) 3 Ty.natTy 7
      = ((cbsW.map fun c => (c 7).1).flatten, TriggerOutcome.ok) := by
  have h : ∀ c ∈ cbsW, (c 7).2 = none := by
    intro c hc
    simp only [cbsW, List.mem_cons, List.not_mem_nil, or_false] at hc
    rcases hc with rfl | rfl <;> rfl
  exact ⟨h, registration_order 3 Ty.natTy cbsW 7 h⟩

/-- C3: registrations accumulate — registering `c1` and then `c2` under
one kind and triggering once invokes both exactly once each (the log is
one run of `c1` followed by one run of `c2`); neither `on` call replaced
or removed the other's callback. -/
theorem accumulation (k : Nat) (t : Ty) (c1 c2 : Cb t) (x : t.interp)
    (h1 : (c1 x).2 = none) (h2 : (c2 x).2 = none) :
    trigger («on» («on» emptyEmitter k t c1) k t c2) k t x
      = ((c1 x).1 ++ (c2 x).1, TriggerOutcome.ok) := by
  have h : ∀ c ∈ [c1, c2], (c x).2 = none := by
    intro c hc
    rcases List.mem_cons.mp hc with rfl | hc
    · exact h1
    · rw [List.mem_singleton.mp hc]; exact h2
  have hr := trigger_registerAll_ok k t [c1, c2] x h
  simpa using hr

/-- Witness for `accumulation`: both sample callbacks log exactly once. -/
theorem accumulation_witness :
    (cb1W 4).2 = none ∧ (cb3W 4).2 = none ∧
    trigger («on» («on» emptyEmitter 2 Ty.natTy cb1W) 2 Ty.natTy cb3W) 2 Ty.natTy 4
      = ((cb1W 4).1 ++ (cb3W 4).1, TriggerOutcome.ok) :=
  ⟨rfl, rfl, accumulation 2 Ty.natTy cb1W cb3W 4 rfl rfl⟩

/-- C4: isolation by kind — registering a callback under kind `a` changes
nothing about triggering a distinct kind `b`; in particular `a`'s callback
is never invoked by `b`'s dispatch, however many times `b` is triggered
(`trigger` takes the emitter by shared reference, so repeated triggers see
the same table). -/
theorem kind_isolation (em : EventEmitter) (a b : Nat) (hab : a ≠ b)
    (t u : Ty) (cb : Cb t) (y : u.interp) :
    trigger («on» em a t cb) b u y = trigger em b u y := by
  rw [trigger_eq_run, trigger_eq_run, bucketOf_on_other em a b t cb (Ne.symm hab)]

/-- Witness for `kind_isolation` at distinct concrete kinds 0 and 1. -/
theorem kind_isolation_witness :
    (0 : Nat) ≠ 1 ∧
    trigger («on» emptyEmitter 0 Ty.natTy cbW) 1 Ty.natTy 9
      = trigger emptyEmitter 1 Ty.natTy 9 := by
  have h : (0 : Nat) ≠ 1 := by decide
  exact ⟨h, kind_isolation emptyEmitter 0 1 h Ty.natTy Ty.natTy cbW 9⟩

/-- C5: payload delivery — every callback invoked during one dispatch
observes exactly the payload value passed to `trigger`: `n` registered
copies of a callback that logs `f` of the payload it observes produce `n`
copies of `f x`, with no alteration between callbacks. -/
theorem payload_delivery (k : Nat) (n : Nat) (f : Nat → Nat) (x : Nat) :
    trigger (registerAll emptyEmitter k Ty.natTy
        (List.replicate n (fun v => ([f v], none)))) k Ty.natTy x
      = (List.replicate n (f x), TriggerOutcome.ok) := by
  rw [trigger_registerAll_ok]
  · congr 1
    rw [List.map_replicate]
    exact flatten_replicate_one n (f x)
  · intro c hc
    rw [List.eq_of_mem_replicate hc]

/-- C6: fail-fast dispatch — with `c1`, `c2`, `c3` registered in that
order and `c2` panicking on the payload, one trigger runs `c1` to
completion, propagates `c2`'s panic to the caller, and never invokes
`c3` (the log stops at `c2`'s actions and is independent of `c3`). -/
theorem fail_fast (k : Nat) (t : Ty) (c1 c2 c3 : Cb t) (x : t.interp)
    (l1 l2 : List Nat) (err : Err)
    (h1 : c1 x = (l1, none)) (h2 : c2 x = (l2, some err)) :
    trigger (registerAll emptyEmitter k t [c1, c2, c3]) k t x
      = (l1 ++ l2, TriggerOutcome.panicked err) := by
  rw [trigger_eq_run, bucketOf_registerAll]
  have hbe : bucketOf emptyEmitter k = [] := rfl
  rw [hbe, List.nil_append]
  simp only [List.map_cons, List.map_nil]
  simp [runHandlers, invokeAt_self, h1, h2]

/-- Witness for `fail_fast`: the panicking sample callback stops dispatch. -/
theorem fail_fast_witness :
    cb1W 0 = ([1], none) ∧ cb2W 0 = ([2], some 7) ∧
    trigger (registerAll emptyEmitter 5 Ty.natTy [cb1W, cb2W, cb3W]) 5 Ty.natTy 0
      = ([1] ++ [2], TriggerOutcome.panicked 7) :=
  ⟨rfl, rfl, fail_fast 5 Ty.natTy cb1W cb2W cb3W 0 [1] [2] 7 rfl rfl⟩

/-- C7: empty dispatch is a no-op — triggering a kind with no bucket does
not fail, invokes no callback (empty log, `ok` outcome), and, `trigger`
taking the emitter by shared reference, leaves the emitter state
unchanged. -/
theorem empty_dispatch (em : EventEmitter) (k : Nat) (t : Ty) (x : t.interp)
    (h : lookupBucket em.events k = none) :
    trigger em k t x = ([], TriggerOutcome.ok) ∧
    (step em (Op.opTrigger k t x)).1 = em :=
  ⟨by simp [trigger, h], rfl⟩

/-- Witness for `empty_dispatch` on a fresh emitter. -/
theorem empty_dispatch_witness :
    lookupBucket emptyEmitter.events 2 = none ∧
    (trigger emptyEmitter 2 Ty.boolTy true = ([], TriggerOutcome.ok) ∧
     (step emptyEmitter (Op.opTrigger 2 Ty.boolTy true)).1 = emptyEmitter) :=
  ⟨rfl, empty_dispatch emptyEmitter 2 Ty.boolTy true rfl⟩

/-- C8: registration is total — for every emitter state, kind, payload
type and callback, `on` succeeds unconditionally: with no duplicate check
and no capacity limit, the bucket for the kind always becomes the previous
bucket (empty when the key was absent) with the erased callback appended,
and the operation returns no value and raises no error (its Lean type is a
total function into `EventEmitter`). -/
theorem registration_total (em : EventEmitter) (k : Nat) (t : Ty) (cb : Cb t) :
    lookupBucket («on» em k t cb).events k
      = some ((lookupBucket em.events k).getD [] ++ [Entry.mk t cb]) :=
  lookup_on_self em k t cb

/-- C9: frame property — `on` under kind `k` leaves the bucket of every
other kind untouched and only appends one entry to `k`'s bucket, keeping
every previously stored entry; and a `trigger` call, which takes the
emitter by shared reference, returns the state it received (the table is
read-only during dispatch). -/
theorem frame_property (em : EventEmitter) (k : Nat) (t : Ty) (cb : Cb t) :
    (∀ k2, k2 ≠ k → lookupBucket («on» em k t cb).events k2 = lookupBucket em.events k2) ∧
    lookupBucket («on» em k t cb).events k
      = some ((lookupBucket em.events k).getD [] ++ [Entry.mk t cb]) ∧
    ∀ k2 t2 (x2 : Ty.interp t2), (step em (Op.opTrigger k2 t2 x2)).1 = em :=
  ⟨fun k2 h2 => lookup_on_other em k k2 t cb h2,
   lookup_on_self em k t cb,
   fun _ _ _ => rfl⟩

/-- C10: implicit invariant — in every emitter state reachable from a
fresh emitter by the public operations, every bucket present in the table
is non-empty: a key is inserted only together with its first callback and
buckets are only appended to, so no operation leaves a key mapped to an
empty callback list. -/
theorem buckets_nonempty (em : EventEmitter) (h : Reachable em) :
    ∀ p ∈ em.events, p.2 ≠ [] := by
  induction h with
  | empty => intro p hp; cases hp
  | next em2 op h2 ih =>
    cases op with
    | opTrigger k t x => exact ih
    | opOn k t cb => exact insertCb_nonempty em2.events k (Entry.mk t cb) ih

/-- Witness for `buckets_nonempty` at a concrete reachable emitter. -/
theorem buckets_nonempty_witness :
    Reachable emW ∧ ∀ p ∈ emW.events, p.2 ≠ [] := by
  have h : Reachable emW :=
    Reachable.next emptyEmitter (Op.opOn 0 Ty.natTy cbW) Reachable.empty
  exact ⟨h, buckets_nonempty emW h⟩

end RustEmitter
